import Mathlib

/-!
Verification of the Shamela scraper core (`src/core/enhanced_shamela_scraper.py`).

A shallow embedding of the pure, text-level operations of the scraper:
strings are `List Char` / `String`, Python's `re` searches are specialised
deterministic scanners (the patterns involved have disjoint character
classes, so backtracking never changes the result), and machine integers
are `Nat`/`Int` (Python integers are unbounded).

Modelling conventions, noted once here:
* Python's `str.strip()` and the regex class `\s` agree on the set of
  whitespace characters; `isPySpace` below lists that set.
* Python's `\d`, `str.isdigit()` and `int()` accept every Unicode decimal
  digit.  The model covers ASCII `0-9`, Arabic-Indic `٠-٩` (U+0660..U+0669)
  and Eastern Arabic-Indic `۰-۹` (U+06F0..U+06F9), the only decimal ranges
  that occur in the scraped Arabic pages and in the claims.
* `int()` also accepts an optional sign and surrounding whitespace;
  underscores between digits are omitted from the model (no claim
  exercises them).
-/

/-- Whitespace as recognised by Python's `str.strip`, `str.split()` and the
regex class `\s` (CPython `Py_UNICODE_ISSPACE`). -/
def isPySpace (c : Char) : Bool :=
  let n := c.toNat
  (9 ≤ n && n ≤ 13) || n = 32 || (28 ≤ n && n ≤ 31) || n = 0x85 || n = 0xa0 ||
  n = 0x1680 || (0x2000 ≤ n && n ≤ 0x200a) || n = 0x2028 || n = 0x2029 ||
  n = 0x202f || n = 0x205f || n = 0x3000

/-- Python `str.strip()` on a character list: drop whitespace from both ends. -/
def pyStrip (l : List Char) : List Char :=
  ((l.dropWhile isPySpace).reverse.dropWhile isPySpace).reverse

/-- Lift of `pyStrip` to `String`. -/
def pyStripStr (s : String) : String :=
  String.mk (pyStrip s.data)

/-- Auxiliary scanner for `re.sub(r'\s+', ' ', ·)`: the flag records whether
the previous character belonged to a whitespace run (whose single `' '`
replacement has already been emitted). -/
def collapseWsAux : List Char → Bool → List Char
  | [], _ => []
  | c :: rest, prevWs =>
    if isPySpace c then
      if prevWs then collapseWsAux rest true
      else ' ' :: collapseWsAux rest true
    else c :: collapseWsAux rest false

/-- Model of `re.sub(r'\s+', ' ', text)`: every maximal whitespace run becomes one space. -/
def collapseWs (l : List Char) : List Char :=
  collapseWsAux l false

/-- Characters of the class `[\r\n\t]`. -/
def isCrLfTab (c : Char) : Bool :=
  c = '\r' || c = '\n' || c = '\t'

/-- Auxiliary scanner for `re.sub(r'[\r\n\t]+', ' ', ·)`, same shape as
`collapseWsAux`. -/
def subCrLfTabAux : List Char → Bool → List Char
  | [], _ => []
  | c :: rest, prevHit =>
    if isCrLfTab c then
      if prevHit then subCrLfTabAux rest true
      else ' ' :: subCrLfTabAux rest true
    else c :: subCrLfTabAux rest false

/-- Model of `re.sub(r'[\r\n\t]+', ' ', text)`. -/
def subCrLfTab (l : List Char) : List Char :=
  subCrLfTabAux l false

/-- Zero-width non-joiner U+200C. -/
def zwnj : Char := '‌'

/-- Zero-width joiner U+200D. -/
def zwj : Char := '‍'

/-- Model of `text.replace('\u200c', '').replace('\u200d', '')`. -/
def removeZeroWidth (l : List Char) : List Char :=
  l.filter (fun c => !(c = zwnj || c = zwj))

/-- Model of `clean_text` (enhanced_shamela_scraper.py, lines 810-819):
empty input short-circuits to `""`; otherwise
`re.sub(r'\s+', ' ', text.strip())`, then `re.sub(r'[\r\n\t]+', ' ', ·)`,
then removal of U+200C/U+200D, then a final `strip()`. -/
def clean_text (s : String) : String :=
  if s = "" then ""
  else String.mk (pyStrip (removeZeroWidth (subCrLfTab (collapseWs (pyStrip s.data)))))

/-- Decimal digits as accepted by Python's `\d` / `int()` on the ranges
relevant here (see header). -/
def isPyDigit (c : Char) : Bool :=
  let n := c.toNat
  (48 ≤ n && n ≤ 57) || (0x660 ≤ n && n ≤ 0x669) || (0x6f0 ≤ n && n ≤ 0x6f9)

/-- Numeric value of a digit accepted by `isPyDigit`. -/
def pyDigitVal (c : Char) : Nat :=
  let n := c.toNat
  if 48 ≤ n && n ≤ 57 then n - 48
  else if 0x660 ≤ n && n ≤ 0x669 then n - 0x660
  else n - 0x6f0

/-- Value of a digit string (most significant digit first). -/
def digitsVal (l : List Char) : Nat :=
  l.foldl (fun acc c => 10 * acc + pyDigitVal c) 0

/-- Python `int(s)` for a string: optional surrounding whitespace, optional
sign, then one or more decimal digits; anything else raises `ValueError`
(modelled as `none`). -/
def pyIntParse (l : List Char) : Option Int :=
  let t := pyStrip l
  match t with
  | '-' :: ds => if ds ≠ [] && ds.all isPyDigit then some (-(digitsVal ds : Int)) else none
  | '+' :: ds => if ds ≠ [] && ds.all isPyDigit then some (digitsVal ds : Int) else none
  | ds => if ds ≠ [] && ds.all isPyDigit then some (digitsVal ds : Int) else none

/-- Model of `normalize_book_id` (lines 162-168): strip whitespace; if the result
starts with `"BK"`, return `str(int(remainder))` (a `ValueError` from
`int` is modelled as `Except.error`); otherwise return the stripped string
unchanged. -/
def normalize_book_id (s : String) : Except Unit String :=
  let t := pyStrip s.data
  match t with
  | 'B' :: 'K' :: rest =>
    match pyIntParse rest with
    | some n => Except.ok (toString n)
    | none => Except.error ()
  | _ => Except.ok (String.mk t)

/-- Substring containment, Python's `needle in hay`. -/
def containsSub (needle : List Char) : List Char → Bool
  | [] => needle.isEmpty
  | c :: rest => needle.isPrefixOf (c :: rest) || containsSub needle rest

/-- Model of `convert_arabic_hindi_digits` (lines 1471-1483).  The ten
sequential `str.replace` calls map `٠`..`٩` (U+0660..U+0669) to ASCII
digits; since the replacement characters are outside the replaced set, the
sequence equals a single character-wise map. -/
def convert_arabic_hindi_digits (s : String) : String :=
  String.mk (s.data.map (fun c =>
    if 0x660 ≤ c.toNat && c.toNat ≤ 0x669 then Char.ofNat (c.toNat - 0x660 + 48) else c))

/-- Character class `[0-9٠-٩]` of the printed-page-number regex
(note: unlike `\d`, it does not include U+06F0..U+06F9). -/
def isPrintedDigit (c : Char) : Bool :=
  let n := c.toNat
  (48 ≤ n && n ≤ 57) || (0x660 ≤ n && n ≤ 0x669)

/-- Attempt to match `[صس]\s*[:：]?\s*([0-9٠-٩]+)` at the head of
the list, returning the captured digit run.  Whitespace, the optional
colon and the digit class are pairwise disjoint, so greedy matching
without backtracking is exact. -/
def matchPrintedAt : List Char → Option (List Char)
  | [] => none
  | c :: rest =>
    if c = 'ص' || c = 'س' then
      let r1 := rest.dropWhile isPySpace
      let r2 := match r1 with
        | k :: t => if k = ':' || k = '：' then t else r1
        | [] => r1
      let r3 := r2.dropWhile isPySpace
      let ds := r3.takeWhile isPrintedDigit
      if ds.isEmpty then none else some ds
    else none

/-- Leftmost-match search (`re.search`): try the matcher at each position,
left to right.  All matchers used here need at least one character, so the
empty final position never matches. -/
def scanFirst (m : List Char → Option (List Char)) : List Char → Option (List Char)
  | [] => none
  | c :: rest =>
    match m (c :: rest) with
    | some ds => some ds
    | none => scanFirst m rest

/-- Model of `extract_printed_page_number` (lines 1608-1639) applied to a
`<title>` text: first match of `[صس]\s*[:：]?\s*([0-9٠-٩]+)`,
Arabic-Indic digits mapped to ASCII, parsed as an integer (the parse of a
nonempty converted digit run never fails). -/
def extract_printed_page_number (title : String) : Option Nat :=
  if title = "" then none
  else
    match scanFirst matchPrintedAt title.data with
    | some ds => some (digitsVal ((convert_arabic_hindi_digits (String.mk ds)).data))
    | none => none

/-- Attempt to match `lit\s*(\d+)` at the head of the list (literal, then
optional whitespace, then a digit run); whitespace and digits are
disjoint, so greedy matching is exact. -/
def matchLitSpaceDigitsAt (lit : List Char) (l : List Char) : Option (List Char) :=
  if lit.isPrefixOf l then
    let ds := ((l.drop lit.length).dropWhile isPySpace).takeWhile isPyDigit
    if ds.isEmpty then none else some ds
  else none

/-- Attempt to match `(\d+)\s*lit` at the head of the list.  Backtracking
to a shorter digit run cannot succeed (the next character would still be a
digit, matching neither `\s` nor the literal), so the greedy run is exact. -/
def matchDigitsSpaceLitAt (lit : List Char) (l : List Char) : Option (List Char) :=
  let ds := l.takeWhile isPyDigit
  if ds.isEmpty then none
  else if lit.isPrefixOf ((l.drop ds.length).dropWhile isPySpace) then some ds
  else none

/-- Attempt to match `(\d+)` at the head of the list. -/
def matchDigitRunAt (l : List Char) : Option (List Char) :=
  let ds := l.takeWhile isPyDigit
  if ds.isEmpty then none else some ds

/-- Ordinal-word table of `extract_edition_number` (lines 591-594), in the
dict's insertion order. -/
def editionOrdinals : List (String × Nat) :=
  [("الأولى", 1), ("الثانية", 2), ("الثالثة", 3), ("الرابعة", 4), ("الخامسة", 5),
   ("السادسة", 6), ("السابعة", 7), ("الثامنة", 8), ("التاسعة", 9), ("العاشرة", 10)]

/-- Model of `extract_edition_number` (lines 563-618): empty input gives
`None`; after stripping, the first ordinal word contained in the text (in
table order) wins; otherwise the first of the capturing patterns
`ط\s*(\d+)`, `الطبعة\s*(\d+)`, `طبعة\s*(\d+)`, `(\d+)\s*طبعة` that matches
wins (the ten group-less patterns `الطبعة\s+الأولى` … are skipped by the
code's `match.groups()` guard); otherwise the first digit run anywhere
(`re.findall(r'\d+')`); otherwise `None`. -/
def extract_edition_number (s : String) : Option Nat :=
  if s = "" then none
  else
    let t := pyStrip s.data
    match editionOrdinals.find? (fun p => containsSub p.1.data t) with
    | some p => some p.2
    | none =>
      match scanFirst (matchLitSpaceDigitsAt ['ط']) t with
      | some ds => some (digitsVal ds)
      | none =>
        match scanFirst (matchLitSpaceDigitsAt "الطبعة".data) t with
        | some ds => some (digitsVal ds)
        | none =>
          match scanFirst (matchLitSpaceDigitsAt "طبعة".data) t with
          | some ds => some (digitsVal ds)
          | none =>
            match scanFirst (matchDigitsSpaceLitAt "طبعة".data) t with
            | some ds => some (digitsVal ds)
            | none =>
              match scanFirst matchDigitRunAt t with
              | some ds => some (digitsVal ds)
              | none => none

/-- Model of the edition branch of `extract_enhanced_edition_info`
(lines 1113-1125), taking the already captured and cleaned edition text as
input: a text containing `بدون تاريخ` or `بدون طبعة` yields `None` for
both the edition text and the edition number; otherwise the text is kept
and the number extracted by `extract_edition_number`. -/
def edition_fields_of_text (edition_text : String) : Option String × Option Nat :=
  if containsSub "بدون تاريخ".data edition_text.data
      || containsSub "بدون طبعة".data edition_text.data then
    (none, none)
  else
    (some edition_text, extract_edition_number edition_text)

/-- Model of line 1144, `publication_year = int(year / 1.030684) + 622`:
the Gregorian year derived from a Hijri year when only the Hijri year is
present.  The float division is modelled as exact rational division
followed by truncation (equal to floor for the nonnegative operands here);
for four-digit years the quotient is far from an integer boundary, so the
double rounding of `1.030684` cannot change the truncated value. -/
def hijri_to_gregorian_derived (h : Nat) : Nat :=
  h * 1000000 / 1030684 + 622

/-- Model of `gregorian_to_hijri` (lines 552-561):
empty result for year 0 or years before 622, otherwise
`str(int((gregorian_year - 622) * 1.030684) + 1)`, the float product
modelled as exact rational arithmetic. -/
def gregorian_to_hijri (g : Nat) : String :=
  if g = 0 || g < 622 then ""
  else toString ((g - 622) * 1030684 / 1000000 + 1)

/-- Fields of the `PageContent` dataclass (lines 701-712) used by the
claims. -/
structure PageContent where
  page_number : Nat
  content : String
  word_count : Nat
  original_page_number : Option Nat
  page_index_internal : Nat
  printed_missing : Bool
  internal_index : Nat
deriving Repr, DecidableEq

/-- Count of the tokens of Python's `content.split()` (split on whitespace
runs, no empty tokens); the flag records whether the previous character
was inside a token. -/
def pyWordCountAux : List Char → Bool → Nat
  | [], _ => 0
  | c :: rest, inWord =>
    if isPySpace c then pyWordCountAux rest false
    else (if inWord then 0 else 1) + pyWordCountAux rest true

/-- Python `len(content.split())`. -/
def pyWordCount (s : String) : Nat :=
  pyWordCountAux s.data false

/-- Inputs of a single reading page that the modelled pipeline consumes:
the text of its `<title>` element and its extracted body text (the value
of `content` at line 1759, after DOM text extraction). -/
structure PageData where
  title : String
  content : String

/-- Model of the page-record construction of `extract_enhanced_page_content`
(lines 1764-1795), given the internal index (the `page_number` argument),
the `has_original_pagination` flag, and the page's inputs: without
original pagination the printed extraction is skipped and `page_number`
stays the internal index; with it, a successful extraction becomes
`page_number`, and a failure keeps the internal index and sets
`printed_missing`. -/
def extract_enhanced_page_content (internal : Nat) (hasOrig : Bool) (pd : PageData) :
    PageContent :=
  let printed : Option Nat := if hasOrig then extract_printed_page_number pd.title else none
  let pageNum : Nat :=
    if hasOrig then
      match printed with
      | some n => n
      | none => internal
    else internal
  let missing : Bool := hasOrig && printed.isNone
  { page_number := pageNum
    content := pd.content
    word_count := if pd.content = "" then 0 else pyWordCount pd.content
    original_page_number := if hasOrig then printed else none
    page_index_internal := internal
    printed_missing := if hasOrig then missing else false
    internal_index := internal }

/-- Model of the sequential (`max_workers == 1`) path of
`extract_pages_traditional_method` (lines 2179-2240): pages 1..n are
fetched in order; a page is kept iff its extracted body text is nonempty
after `strip()` (line 2197, `page_content and page_content.content.strip()`). -/
def extract_pages_traditional_method (n : Nat) (hasOrig : Bool) (site : Nat → PageData) :
    List PageContent :=
  (List.range' 1 n).filterMap (fun i =>
    let p := extract_enhanced_page_content i hasOrig (site i)
    if pyStrip p.content.data ≠ [] then some p else none)

/-- Sort key order of line 2137: by the `page_number` field. -/
def pageNumLe (p q : PageContent) : Prop :=
  p.page_number ≤ q.page_number

instance : DecidableRel pageNumLe := fun p q => Nat.decLe p.page_number q.page_number

/-- Model of `extract_all_pages_enhanced` (lines 2102-2144) on the
traditional sequential path: collect the pages, then (line 2137)
`pages.sort(key=lambda p: p.page_number)` — Python's stable sort by the
`page_number` field, modelled by the (stable) insertion sort. -/
def extract_all_pages_enhanced (n : Nat) (hasOrig : Bool) (site : Nat → PageData) :
    List PageContent :=
  (extract_pages_traditional_method n hasOrig site).insertionSort pageNumLe

/-- Fields of the `Volume` dataclass (lines 693-699) used by the claims.
Page bounds are integers (`page_end` is computed by a Python subtraction
that may in principle go negative) and `page_end` is optional: the
fallback volume leaves it `None`. -/
structure Volume where
  number : Nat
  title : String
  page_start : Int
  page_end : Option Int
deriving Repr, DecidableEq

/-- A link of the reading page's volume dropdown: its `href` attribute and
the raw text of the anchor. -/
structure VolLink where
  href : String
  text : String
deriving Repr, DecidableEq

/-- Attempt to match `lit(\d+)` at the head of the list (the pattern
`/book/{id}/(\d+)`: literal immediately followed by a digit run). -/
def matchLitDigitsAt (lit : List Char) (l : List Char) : Option (List Char) :=
  if lit.isPrefixOf l then
    let ds := (l.drop lit.length).takeWhile isPyDigit
    if ds.isEmpty then none else some ds
  else none

/-- First capture of `re.search(rf"/book/{book_id}/(\d+)", href)`; the
model assumes `book_id` contains no regex metacharacters (in the scraper
it is a decimal identifier). -/
def searchBookPage (book_id : String) (href : String) : Option Nat :=
  match scanFirst (matchLitDigitsAt ("/book/" ++ book_id ++ "/").data) href.data with
  | some ds => some (digitsVal ds)
  | none => none

/-- Python `str.isdigit()` restricted to the decimal ranges of the model:
nonempty and all digits. -/
def pyIsDigitStr (s : String) : Bool :=
  !s.data.isEmpty && s.data.all isPyDigit

/-- The acceptance filter of the dropdown-selector loop (lines 1514-1522):
the link's `href` must be nonempty and contain `/book/{book_id}/`, and
either the `href` contains `#p1`, or the cleaned link text is all digits,
or it contains a digit after Arabic-Indic conversion. -/
def volLinkAccepted (book_id : String) (lk : VolLink) : Bool :=
  let text := clean_text lk.text
  !lk.href.data.isEmpty
    && containsSub ("/book/" ++ book_id ++ "/").data lk.href.data
    && (containsSub "#p1".data lk.href.data
        || pyIsDigitStr text
        || (convert_arabic_hindi_digits text).data.any isPyDigit)

/-- The per-link extraction of the second loop of
`extract_volumes_from_dropdown` (lines 1533-1558): skip empty or header
texts; the volume number is the first digit run of the converted text
(`re.search(r'(\d+)', converted_text)`), the internal start the capture of
`/book/{book_id}/(\d+)` in the `href`; a link missing either is skipped. -/
def volDatum (book_id : String) (lk : VolLink) : Option (Nat × Nat) :=
  let text := clean_text lk.text
  if text = "" || text = "رقم الجزء" || text = "الجزء" || text = "المجلد" then none
  else
    match scanFirst matchDigitRunAt (convert_arabic_hindi_digits text).data with
    | none => none
    | some vds =>
      match searchBookPage book_id lk.href with
      | none => none
      | some start => some (digitsVal vds, start)

/-- One step of the deduplication dict build (lines 1561-1566): keep the
minimum start for an already seen volume number, append a new number. -/
def upsertMin (acc : List (Nat × Nat)) (p : Nat × Nat) : List (Nat × Nat) :=
  if acc.any (fun q => q.1 = p.1) then
    acc.map (fun q => if q.1 = p.1 then (q.1, min q.2 p.2) else q)
  else acc ++ [p]

/-- The deduplication dict of lines 1561-1566 as an association list in
insertion order. -/
def dedupMin (l : List (Nat × Nat)) : List (Nat × Nat) :=
  l.foldl upsertMin []

/-- Lexicographic order on pairs, the order of Python's `sorted` on
2-tuples. -/
def pairLe (a b : Nat × Nat) : Prop :=
  a.1 < b.1 ∨ (a.1 = b.1 ∧ a.2 ≤ b.2)

instance : DecidableRel pairLe := fun a b => by
  unfold pairLe; infer_instance

/-- Python's `sorted(unique_volumes.items())`: lexicographic order on the
pairs (the keys are distinct, so this is order by volume number). -/
def sortPairs (l : List (Nat × Nat)) : List (Nat × Nat) :=
  l.insertionSort pairLe

/-- Model of lines 1575-1583: the largest integer captured by
`/book/{book_id}/(\d+)` over all anchor `href`s of the reading page,
starting from 1. -/
def maxInternalPage (book_id : String) (all_hrefs : List String) : Nat :=
  all_hrefs.foldl (fun m h =>
    match searchBookPage book_id h with
    | some n => max m n
    | none => m) 1

/-- The volume record built at lines 1594-1599: number, the title
`الجزء {n}`, start and end pages. -/
def mkVol (v st : Nat) (e : Int) : Volume :=
  { number := v, title := "الجزء " ++ toString v, page_start := (st : Int), page_end := some e }

/-- Model of the end-assignment loop (lines 1586-1600): each volume ends
one before the next volume's start; the last ends at `maxP`. -/
def assignEnds (maxP : Nat) : List (Nat × Nat) → List Volume
  | [] => []
  | [(v, st)] => [mkVol v st (maxP : Int)]
  | (v, st) :: (v2, st2) :: rest =>
    mkVol v st ((st2 : Int) - 1) :: assignEnds maxP ((v2, st2) :: rest)

/-- The fallback volume of lines 1530 and 1573: note `page_end = None`. -/
def fallbackVolume : Volume :=
  { number := 1, title := "المجلد الأول", page_start := 1, page_end := none }

/-- Model of `extract_volumes_from_dropdown` (lines 1485-1606) from the
DOM boundary: `candidates` are the anchors returned by the dropdown
selectors (the selector loop stops at the first selector contributing an
accepted link), `all_hrefs` the `href`s of all anchors of the reading
page.  Accepted links are reduced to `(volumeNumber, internalStart)`
pairs, deduplicated keeping the minimum start, sorted, and given end
pages; if no link is accepted or no pair survives, the single fallback
volume is returned. -/
def extract_volumes_from_dropdown (book_id : String) (candidates : List VolLink)
    (all_hrefs : List String) : List Volume :=
  let found := candidates.filter (volLinkAccepted book_id)
  if found.isEmpty then [fallbackVolume]
  else
    let volume_data := found.filterMap (volDatum book_id)
    let sortedVols := sortPairs (dedupMin volume_data)
    if sortedVols.isEmpty then [fallbackVolume]
    else assignEnds (maxInternalPage book_id all_hrefs) sortedVols

/-- A parsed landing page at the selector boundary: for each CSS selector,
the text of the element `select_one` returns, when one matches. -/
abbrev Soup : Type := List (String × String)

/-- The text of `soup.select_one(sel)`. -/
def selectOne (soup : Soup) (sel : String) : Option String :=
  (soup.find? (fun p => p.1 = sel)).map (fun p => p.2)

/-- The title selector list of `extract_enhanced_book_info` (line 831). -/
def title_selectors : List String :=
  ["h1.book-title", "h1", ".book-title", "title"]

/-- The title loop of `extract_enhanced_book_info` (lines 835-841): each
matching selector overwrites the running value with its cleaned text; the
loop stops at the first cleaned text longer than 3 characters. -/
def titleLoop (soup : Soup) : List String → String → String
  | [], acc => acc
  | sel :: rest, acc =>
    match selectOne soup sel with
    | some txt =>
      let t := clean_text txt
      if 3 < t.length then t else titleLoop soup rest t
    | none => titleLoop soup rest acc

/-- Model of the title extraction of `extract_enhanced_book_info`
(lines 830-844): run the loop, then raise (line 843, `if not title`) iff
the resulting string is empty. -/
def extract_title (soup : Soup) : Except Unit String :=
  let t := titleLoop soup title_selectors ""
  if t = "" then Except.error () else Except.ok t

instance : IsTotal PageContent pageNumLe :=
  ⟨fun p q => Nat.le_total p.page_number q.page_number⟩

instance : IsTrans PageContent pageNumLe :=
  ⟨fun _ _ _ h h2 => Nat.le_trans h h2⟩

instance : IsTotal (Nat × Nat) pairLe := by
  constructor
  intro a b
  unfold pairLe
  rcases Nat.lt_trichotomy a.1 b.1 with h | h | h
  · exact Or.inl (Or.inl h)
  · rcases Nat.le_total a.2 b.2 with h2 | h2
    · exact Or.inl (Or.inr ⟨h, h2⟩)
    · exact Or.inr (Or.inr ⟨h.symm, h2⟩)
  · exact Or.inr (Or.inl h)

instance : IsTrans (Nat × Nat) pairLe := by
  constructor
  intro a b c hab hbc
  unfold pairLe at *
  rcases hab with h | ⟨h, h2⟩
  · rcases hbc with h3 | ⟨h3, _⟩
    · exact Or.inl (h.trans h3)
    · exact Or.inl (h3 ▸ h)
  · rcases hbc with h3 | ⟨h3, h4⟩
    · exact Or.inl (h ▸ h3)
    · exact Or.inr ⟨h.trans h3, h2.trans h4⟩

/-- The minimum start page recorded for volume number `k` over a list of
`(volumeNumber, internalStart)` pairs, `none` when `k` never occurs: the
value the deduplication dict of lines 1561-1566 associates with `k`. -/
def minMatch (k : Nat) : List (Nat × Nat) → Option Nat
  | [] => none
  | p :: rest =>
    if p.1 = k then
      some (match minMatch k rest with
        | some m => min p.2 m
        | none => p.2)
    else minMatch k rest

/-- Lookup in an association list by key, the value of `dict[k]`. -/
def alookup (k : Nat) (m : List (Nat × Nat)) : Option Nat :=
  (m.find? (fun q => q.1 = k)).map (fun q => q.2)

/-- Per-selector reading of the title loop: the cleaned text of the
selector's match when it is longer than 3 characters. -/
def goodOf (soup : Soup) (sel : String) : Option String :=
  (selectOne soup sel).bind (fun txt =>
    let t := clean_text txt
    if 3 < t.length then some t else none)

/-- Selector-level reading of the title loop: the cleaned text of the
first selector whose cleaned text is longer than 3 characters. -/
def firstGoodTitle (soup : Soup) : Option String :=
  title_selectors.findSome? (goodOf soup)

/-- The cleaned text of the last selector of the list that matches at all
(the value the loop's accumulator holds when no selector is long enough). -/
def lastMatchClean (soup : Soup) : Option String :=
  title_selectors.reverse.findSome? (fun sel => (selectOne soup sel).map clean_text)

/-!
Auxiliary lemmas about the deduplication dict, the pair sort and the
end-assignment of `extract_volumes_from_dropdown`.
-/
theorem minMatch_isSome (k : Nat) :
    ∀ (l : List (Nat × Nat)) (b : Nat), (k, b) ∈ l → (minMatch k l).isSome := by
  intro l
  induction l with
  | nil => intro b hb; cases hb
  | cons p rest ih =>
    intro b hb
    rw [minMatch]
    rcases List.mem_cons.1 hb with hb1 | hb2
    · rw [if_pos (show p.1 = k by rw [← hb1])]
      rfl
    · by_cases hk : p.1 = k
      · rw [if_pos hk]; rfl
      · rw [if_neg hk]; exact ih b hb2

theorem minMatch_le (k : Nat) :
    ∀ (l : List (Nat × Nat)) (v : Nat), minMatch k l = some v →
      ∀ b, (k, b) ∈ l → v ≤ b := by
  intro l
  induction l with
  | nil => intro v h b hb; cases hb
  | cons p rest ih =>
    intro v h b hb
    rw [minMatch] at h
    rcases List.mem_cons.1 hb with hb1 | hb2
    · have hk : p.1 = k := by rw [← hb1]
      rw [if_pos hk] at h
      have hb' : p.2 = b := by rw [← hb1]
      rw [← hb']
      cases hmr : minMatch k rest with
      | none => rw [hmr] at h; cases h; rfl
      | some m => rw [hmr] at h; cases h; exact Nat.min_le_left _ _
    · by_cases hk : p.1 = k
      · rw [if_pos hk] at h
        cases hmr : minMatch k rest with
        | none =>
          have := minMatch_isSome k rest b hb2
          rw [hmr] at this
          cases this
        | some m =>
          rw [hmr] at h
          cases h
          exact Nat.le_trans (Nat.min_le_right _ _) (ih m hmr b hb2)
      · rw [if_neg hk] at h
        exact ih v h b hb2

theorem minMatch_mem (k : Nat) :
    ∀ (l : List (Nat × Nat)) (v : Nat), minMatch k l = some v → (k, v) ∈ l := by
  intro l
  induction l with
  | nil => intro v h; cases h
  | cons p rest ih =>
    intro v h
    rw [minMatch] at h
    by_cases hk : p.1 = k
    · rw [if_pos hk] at h
      cases hmr : minMatch k rest with
      | none =>
        rw [hmr] at h
        cases h
        have hpe : (k, p.2) = p := by rw [← hk]
        rw [hpe]
        exact List.mem_cons_self _ _
      | some m =>
        rw [hmr] at h
        cases h
        show (k, p.2 ⊓ m) ∈ p :: rest
        rcases Nat.le_total p.2 m with hc | hc
        · rw [min_eq_left hc]
          have hpe : (k, p.2) = p := by rw [← hk]
          rw [hpe]
          exact List.mem_cons_self _ _
        · rw [min_eq_right hc]
          exact List.mem_cons_of_mem _ (ih m hmr)
    · rw [if_neg hk] at h
      exact List.mem_cons_of_mem _ (ih v h)

theorem alookup_nil (k : Nat) : alookup k [] = none := rfl

theorem alookup_map_min (k j x : Nat) :
    ∀ acc : List (Nat × Nat),
      alookup k (acc.map (fun q => if q.1 = j then (q.1, min q.2 x) else q))
        = if j = k then (alookup k acc).map (fun m => min m x) else alookup k acc := by
  intro acc
  induction acc with
  | nil => by_cases hjk : j = k <;> simp [alookup, hjk]
  | cons q rest ih =>
    have hfst : (if q.1 = j then (q.1, min q.2 x) else q).1 = q.1 := by split <;> rfl
    by_cases hqk : q.1 = k
    · simp only [alookup, List.map_cons, List.find?_cons]
      rw [show (decide ((if q.1 = j then (q.1, min q.2 x) else q).1 = k)) = true by
        rw [hfst]; exact decide_eq_true hqk]
      rw [show (decide (q.1 = k)) = true from decide_eq_true hqk]
      by_cases hjk : j = k
      · rw [if_pos hjk, if_pos (by rw [hqk, hjk])]
        try rfl
      · rw [if_neg hjk, if_neg (fun hq => hjk (by rw [← hq, hqk]))]
        try rfl
    · simp only [alookup, List.map_cons, List.find?_cons]
      rw [show (decide ((if q.1 = j then (q.1, min q.2 x) else q).1 = k)) = false by
        rw [hfst]; exact decide_eq_false hqk]
      rw [show (decide (q.1 = k)) = false from decide_eq_false hqk]
      exact ih

theorem alookup_isSome_of_any (k : Nat) (acc : List (Nat × Nat))
    (h : acc.any (fun q => q.1 = k) = true) : (alookup k acc).isSome := by
  unfold alookup
  rcases List.any_eq_true.1 h with ⟨q, hq, hqk⟩
  have hs : (List.find? (fun q => decide (q.1 = k)) acc).isSome := by
    rw [List.find?_isSome]
    exact ⟨q, hq, hqk⟩
  obtain ⟨r, hr⟩ := Option.isSome_iff_exists.1 hs
  rw [hr]
  rfl

theorem any_of_alookup_some (k : Nat) (acc : List (Nat × Nat)) (m : Nat)
    (h : alookup k acc = some m) : acc.any (fun q => q.1 = k) = true := by
  unfold alookup at h
  cases hf : List.find? (fun q => decide (q.1 = k)) acc with
  | none => rw [hf] at h; cases h
  | some q =>
    exact List.any_eq_true.2 ⟨q, List.mem_of_find?_eq_some hf, List.find?_some (p := fun q : Nat × Nat => decide (q.1 = k)) hf⟩

theorem alookup_append_single (k : Nat) (acc : List (Nat × Nat)) (p : Nat × Nat) :
    alookup k (acc ++ [p])
      = match alookup k acc with
        | some m => some m
        | none => if p.1 = k then some p.2 else none := by
  unfold alookup
  rw [List.find?_append]
  cases hf : List.find? (fun q => decide (q.1 = k)) acc with
  | some q => rfl
  | none =>
    by_cases hpk : p.1 = k
    · simp [List.find?_cons, hpk]
    · simp [List.find?_cons, hpk]

theorem alookup_upsertMin (k : Nat) (acc : List (Nat × Nat)) (p : Nat × Nat) :
    alookup k (upsertMin acc p)
      = if p.1 = k then
          some (match alookup k acc with
            | some m => min m p.2
            | none => p.2)
        else alookup k acc := by
  unfold upsertMin
  by_cases hany : acc.any (fun q => q.1 = p.1) = true
  · rw [if_pos hany, alookup_map_min k p.1 p.2 acc]
    by_cases hpk : p.1 = k
    · subst hpk
      rw [if_pos rfl, if_pos rfl]
      have hs := alookup_isSome_of_any p.1 acc hany
      cases hm : alookup p.1 acc with
      | none => rw [hm] at hs; cases hs
      | some m => rfl
    · rw [if_neg hpk, if_neg hpk]
  · rw [if_neg hany, alookup_append_single k acc p]
    by_cases hpk : p.1 = k
    · subst hpk
      rw [if_pos rfl]
      cases hm : alookup p.1 acc with
      | none => rw [if_pos rfl]
      | some m => exact absurd (any_of_alookup_some p.1 acc m hm) hany
    · rw [if_neg hpk]
      cases hm : alookup k acc with
      | none => rw [if_neg hpk]
      | some m => rw [if_neg hpk]

theorem alookup_foldl_upsertMin (k : Nat) :
    ∀ (l : List (Nat × Nat)) (acc : List (Nat × Nat)),
      alookup k (l.foldl upsertMin acc)
        = match alookup k acc, minMatch k l with
          | none, r => r
          | some m, none => some m
          | some m, some r => some (min m r) := by
  intro l
  induction l with
  | nil =>
    intro acc
    rw [List.foldl_nil]
    cases halm : alookup k acc with
    | none => rfl
    | some m => rfl
  | cons p rest ih =>
    intro acc
    rw [List.foldl_cons, ih (upsertMin acc p), alookup_upsertMin k acc p, minMatch]
    by_cases hpk : p.1 = k
    · rw [if_pos hpk, if_pos hpk]
      cases hm : alookup k acc with
      | none =>
        cases hr : minMatch k rest with
        | none => rfl
        | some r => rfl
      | some m =>
        cases hr : minMatch k rest with
        | none => rfl
        | some r =>
          show some (min (min m p.2) r) = some (min m (min p.2 r))
          rw [Nat.min_assoc]
    · rw [if_neg hpk, if_neg hpk]

theorem alookup_dedupMin (k : Nat) (l : List (Nat × Nat)) :
    alookup k (dedupMin l) = minMatch k l := by
  unfold dedupMin
  rw [alookup_foldl_upsertMin k l [], alookup_nil]

theorem upsertMin_keys (acc : List (Nat × Nat)) (p : Nat × Nat) :
    (upsertMin acc p).map Prod.fst
      = if acc.any (fun q => q.1 = p.1) then acc.map Prod.fst
        else acc.map Prod.fst ++ [p.1] := by
  unfold upsertMin
  split
  · rw [List.map_map]
    congr 1
    funext q
    show (if q.1 = p.1 then (q.1, min q.2 p.2) else q).1 = q.1
    split <;> rfl
  · rw [List.map_append]
    rfl

theorem upsertMin_keys_nodup (acc : List (Nat × Nat)) (p : Nat × Nat)
    (h : (acc.map Prod.fst).Nodup) : ((upsertMin acc p).map Prod.fst).Nodup := by
  rw [upsertMin_keys]
  split
  · exact h
  · next hany =>
    rw [List.nodup_append]
    refine ⟨h, List.nodup_singleton _, ?_⟩
    intro a ha hb
    rcases List.mem_map.1 ha with ⟨q, hq, hqa⟩
    rcases List.mem_singleton.1 hb with rfl
    exact hany (List.any_eq_true.2 ⟨q, hq, decide_eq_true hqa⟩)

theorem dedupMin_keys_nodup (l : List (Nat × Nat)) :
    ((dedupMin l).map Prod.fst).Nodup := by
  unfold dedupMin
  have main : ∀ (l acc : List (Nat × Nat)), (acc.map Prod.fst).Nodup →
      ((l.foldl upsertMin acc).map Prod.fst).Nodup := by
    intro l
    induction l with
    | nil => intro acc h; exact h
    | cons p rest ih =>
      intro acc h
      rw [List.foldl_cons]
      exact ih _ (upsertMin_keys_nodup acc p h)
  exact main l [] List.nodup_nil

theorem mem_iff_alookup (k v : Nat) :
    ∀ m : List (Nat × Nat), (m.map Prod.fst).Nodup →
      ((k, v) ∈ m ↔ alookup k m = some v) := by
  intro m
  induction m with
  | nil => intro h; simp [alookup]
  | cons q rest ih =>
    intro h
    rw [List.map_cons, List.nodup_cons] at h
    unfold alookup
    rw [List.find?_cons]
    by_cases hqk : q.1 = k
    · rw [show (decide (q.1 = k)) = true from decide_eq_true hqk]
      constructor
      · intro hm
        rcases List.mem_cons.1 hm with h1 | h2
        · rw [← h1]
          rfl
        · exfalso
          apply h.1
          rw [hqk]
          exact List.mem_map.2 ⟨(k, v), h2, rfl⟩
      · intro he
        have hv : q.2 = v := Option.some.inj he
        refine List.mem_cons.2 (Or.inl ?_)
        rw [← hqk, ← hv]
    · rw [show (decide (q.1 = k)) = false from decide_eq_false hqk]
      rw [List.mem_cons]
      constructor
      · intro hm
        rcases hm with h1 | h2
        · exact absurd (by rw [← h1]) hqk
        · exact (ih h.2).1 h2
      · intro he
        right
        exact (ih h.2).2 he

theorem sortPairs_perm (l : List (Nat × Nat)) : (sortPairs l).Perm l :=
  List.perm_insertionSort pairLe l

theorem sortPairs_sorted (l : List (Nat × Nat)) :
    List.Pairwise pairLe (sortPairs l) :=
  List.sorted_insertionSort pairLe l

theorem sortPairs_strict (l : List (Nat × Nat)) (h : (l.map Prod.fst).Nodup) :
    List.Pairwise (fun a b : Nat × Nat => a.1 < b.1) (sortPairs l) := by
  have hn : ((sortPairs l).map Prod.fst).Nodup :=
    (((sortPairs_perm l).map Prod.fst).nodup_iff).2 h
  have hne : List.Pairwise (fun a b : Nat × Nat => a.1 ≠ b.1) (sortPairs l) :=
    List.pairwise_map.1 hn
  have := (sortPairs_sorted l).and hne
  exact this.imp (fun hab => by
    rcases hab with ⟨hle | ⟨heq, _⟩, hne2⟩
    · exact hle
    · exact absurd heq hne2)

theorem assignEnds_pairs (maxP : Nat) :
    ∀ ps : List (Nat × Nat),
      (assignEnds maxP ps).map (fun v => (v.number, v.page_start))
        = ps.map (fun p => (p.1, (p.2 : Int))) := by
  intro ps
  induction ps with
  | nil => rfl
  | cons p rest ih =>
    obtain ⟨v, st⟩ := p
    cases rest with
    | nil => rfl
    | cons q rest2 =>
      obtain ⟨v2, st2⟩ := q
      simp only [assignEnds, List.map_cons] at ih ⊢
      exact congrArg _ ih

theorem assignEnds_chain (maxP : Nat) :
    ∀ ps : List (Nat × Nat),
      List.Chain' (fun a b : Volume => a.page_end = some (b.page_start - 1))
        (assignEnds maxP ps) := by
  intro ps
  induction ps with
  | nil => exact List.chain'_nil
  | cons p rest ih =>
    obtain ⟨v, st⟩ := p
    cases rest with
    | nil => exact List.chain'_singleton _
    | cons q rest2 =>
      obtain ⟨v2, st2⟩ := q
      rw [assignEnds]
      apply List.chain'_cons'.2
      refine ⟨?_, ih⟩
      intro b hb
      cases rest2 with
      | nil =>
        have hbe : b = mkVol v2 st2 (maxP : Int) := by
          have := hb
          simp only [assignEnds, List.head?_cons, Option.mem_def, Option.some.injEq] at this
          exact this.symm
        rw [hbe]
        rfl
      | cons r rest3 =>
        obtain ⟨v3, st3⟩ := r
        have hbe : b = mkVol v2 st2 ((st3 : Int) - 1) := by
          have := hb
          simp only [assignEnds, List.head?_cons, Option.mem_def, Option.some.injEq] at this
          exact this.symm
        rw [hbe]
        rfl


theorem evd_eq (book_id : String) (candidates : List VolLink) (all_hrefs : List String) :
    extract_volumes_from_dropdown book_id candidates all_hrefs
      = if candidates.filter (volLinkAccepted book_id) = [] then [fallbackVolume]
        else if sortPairs (dedupMin ((candidates.filter (volLinkAccepted book_id)).filterMap
            (volDatum book_id))) = [] then [fallbackVolume]
        else assignEnds (maxInternalPage book_id all_hrefs)
          (sortPairs (dedupMin ((candidates.filter (volLinkAccepted book_id)).filterMap
            (volDatum book_id)))) := by
  simp only [extract_volumes_from_dropdown]
  by_cases h1 : candidates.filter (volLinkAccepted book_id) = []
  · rw [if_pos (by rw [h1]; rfl), if_pos h1]
  · rw [if_neg (fun hc => h1 (List.isEmpty_iff.1 hc)), if_neg h1]
    by_cases h2 : sortPairs (dedupMin ((candidates.filter (volLinkAccepted book_id)).filterMap
        (volDatum book_id))) = []
    · rw [if_pos (by rw [h2]; rfl), if_pos h2]
    · rw [if_neg (fun hc => h2 (List.isEmpty_iff.1 hc)), if_neg h2]

theorem vols_map_pair (maxP : Nat) (ps : List (Nat × Nat)) :
    (assignEnds maxP ps).map (fun v : Volume => v.number)
      = ps.map (fun p => p.1) := by
  have h1 := assignEnds_pairs maxP ps
  have h2 : (assignEnds maxP ps).map (fun v : Volume => v.number)
      = ((assignEnds maxP ps).map (fun v : Volume => (v.number, v.page_start))).map Prod.fst := by
    rw [List.map_map]
    rfl
  rw [h2, h1, List.map_map]
  rfl

/-- Claim C5 (amended): volume discovery from the dropdown.  Accepted
links are reduced to `(volumeNumber, internalStart)` pairs (first integer
of the converted text, href capture — see `volDatum`), deduplicated by
volume number keeping the minimum start (`minMatch`), sorted by volume
number ascending, and each volume's `pageEnd` is the next volume's
`pageStart` minus 1; when no valid entry is found the synthesized single
volume is `{number = 1, pageStart = 1, pageEnd = None}` — with `pageEnd`
left unset, not `pageCountInternal` as the claim states. -/
theorem C5_volumes :
    ∀ (book_id : String) (candidates : List VolLink) (all_hrefs : List String),
      ((candidates.filter (volLinkAccepted book_id) = []
          ∨ dedupMin ((candidates.filter (volLinkAccepted book_id)).filterMap (volDatum book_id))
              = []) →
        extract_volumes_from_dropdown book_id candidates all_hrefs = [fallbackVolume])
      ∧ (dedupMin ((candidates.filter (volLinkAccepted book_id)).filterMap (volDatum book_id))
            ≠ [] →
          List.Pairwise (fun a b : Volume => a.number < b.number)
              (extract_volumes_from_dropdown book_id candidates all_hrefs)
            ∧ List.Chain' (fun a b : Volume => a.page_end = some (b.page_start - 1))
                (extract_volumes_from_dropdown book_id candidates all_hrefs)
            ∧ (∀ v ∈ extract_volumes_from_dropdown book_id candidates all_hrefs,
                ∃ s : Nat,
                  minMatch v.number
                      ((candidates.filter (volLinkAccepted book_id)).filterMap (volDatum book_id))
                    = some s
                  ∧ v.page_start = (s : Int))
            ∧ (∀ p ∈ (candidates.filter (volLinkAccepted book_id)).filterMap (volDatum book_id),
                ∃ v ∈ extract_volumes_from_dropdown book_id candidates all_hrefs,
                  v.number = p.1)) := by
  intro book_id candidates all_hrefs
  rw [evd_eq book_id candidates all_hrefs]
  constructor
  · rintro (h1 | h2)
    · rw [if_pos h1]
    · by_cases h1 : candidates.filter (volLinkAccepted book_id) = []
      · rw [if_pos h1]
      · rw [if_neg h1, if_pos (by rw [h2]; rfl)]
  · intro hd
    have h1 : candidates.filter (volLinkAccepted book_id) ≠ [] := by
      intro he
      apply hd
      rw [he]
      rfl
    have hsp : sortPairs (dedupMin ((candidates.filter (volLinkAccepted book_id)).filterMap
        (volDatum book_id))) ≠ [] := by
      intro he
      have hperm := sortPairs_perm (dedupMin ((candidates.filter (volLinkAccepted book_id)).filterMap
        (volDatum book_id)))
      rw [he] at hperm
      exact hd hperm.symm.eq_nil
    rw [if_neg h1, if_neg hsp]
    set data := (candidates.filter (volLinkAccepted book_id)).filterMap (volDatum book_id) with hdata
    set sp := sortPairs (dedupMin data) with hspdef
    set maxP := maxInternalPage book_id all_hrefs with hmaxP
    have hnodupKeys : ((dedupMin data).map Prod.fst).Nodup := dedupMin_keys_nodup data
    have hspNodup : (sp.map Prod.fst).Nodup :=
      (((sortPairs_perm (dedupMin data)).map Prod.fst).nodup_iff).2 hnodupKeys
    refine ⟨?_, assignEnds_chain maxP sp, ?_, ?_⟩
    · have hstrict := sortPairs_strict (dedupMin data) hnodupKeys
      have hmapnum := vols_map_pair maxP sp
      have : List.Pairwise (fun a b : Nat => a < b) ((assignEnds maxP sp).map (fun v => v.number)) := by
        rw [hmapnum]
        exact List.pairwise_map.2 hstrict
      exact List.pairwise_map.1 this
    · intro v hv
      have hpairmem : (v.number, v.page_start)
          ∈ (assignEnds maxP sp).map (fun v : Volume => (v.number, v.page_start)) :=
        List.mem_map_of_mem _ hv
      rw [assignEnds_pairs maxP sp] at hpairmem
      rcases List.mem_map.1 hpairmem with ⟨p, hp, hpe⟩
      have hpd : p ∈ dedupMin data := (sortPairs_perm (dedupMin data)).subset hp
      have halk : alookup p.1 (dedupMin data) = some p.2 :=
        (mem_iff_alookup p.1 p.2 (dedupMin data) hnodupKeys).1 (by
          rw [show (p.1, p.2) = p from rfl]
          exact hpd)
      have hmm : minMatch p.1 data = some p.2 := by
        rw [← alookup_dedupMin]
        exact halk
      refine ⟨p.2, ?_, ?_⟩
      · rw [show v.number = p.1 from (congrArg Prod.fst hpe).symm]
        exact hmm
      · exact (congrArg Prod.snd hpe).symm
    · intro p hp
      have hsome := minMatch_isSome p.1 data p.2 (by
        rw [show (p.1, p.2) = p from rfl]
        exact hp)
      obtain ⟨v0, hv0⟩ := Option.isSome_iff_exists.1 hsome
      have hmem : (p.1, v0) ∈ dedupMin data :=
        (mem_iff_alookup p.1 v0 (dedupMin data) hnodupKeys).2 (by
          rw [alookup_dedupMin]
          exact hv0)
      have hmemsp : (p.1, v0) ∈ sp := ((sortPairs_perm (dedupMin data)).mem_iff).2 hmem
      have : ((p.1, v0).1, ((p.1, v0).2 : Int))
          ∈ (assignEnds maxP sp).map (fun v : Volume => (v.number, v.page_start)) := by
        rw [assignEnds_pairs maxP sp]
        exact List.mem_map_of_mem _ hmemsp
      rcases List.mem_map.1 this with ⟨v, hvmem, hveq⟩
      exact ⟨v, hvmem, congrArg Prod.fst hveq⟩

theorem collapseWsAux_mem :
    ∀ (l : List Char) (b : Bool) (c : Char), c ∈ collapseWsAux l b →
      (c ∈ l ∧ isPySpace c = false) ∨ c = ' ' := by
  intro l
  induction l with
  | nil => intro b c hc; cases hc
  | cons a rest ih =>
    intro b c hc
    rw [collapseWsAux] at hc
    by_cases ha : isPySpace a
    · rw [if_pos ha] at hc
      cases b with
      | true =>
        rcases ih true c hc with ⟨h1, h2⟩ | h3
        · exact Or.inl ⟨List.mem_cons_of_mem _ h1, h2⟩
        · exact Or.inr h3
      | false =>
        rcases List.mem_cons.1 hc with h1 | h2
        · exact Or.inr h1
        · rcases ih true c h2 with ⟨h1, h2'⟩ | h3
          · exact Or.inl ⟨List.mem_cons_of_mem _ h1, h2'⟩
          · exact Or.inr h3
    · rw [if_neg ha] at hc
      rcases List.mem_cons.1 hc with h1 | h2
      · subst h1
        exact Or.inl ⟨List.mem_cons_self _ _, Bool.eq_false_iff.2 ha⟩
      · rcases ih false c h2 with ⟨h1, h2'⟩ | h3
        · exact Or.inl ⟨List.mem_cons_of_mem _ h1, h2'⟩
        · exact Or.inr h3

theorem collapseWsAux_head_true :
    ∀ (l : List Char) (c : Char), (collapseWsAux l true).head? = some c →
      isPySpace c = false := by
  intro l
  induction l with
  | nil => intro c hc; cases hc
  | cons a rest ih =>
    intro c hc
    rw [collapseWsAux] at hc
    by_cases ha : isPySpace a
    · rw [if_pos ha] at hc
      exact ih c hc
    · rw [if_neg ha] at hc
      cases hc
      exact Bool.eq_false_iff.2 ha

theorem collapseWsAux_chain :
    ∀ (l : List Char) (b : Bool),
      List.Chain' (fun x y => ¬(isPySpace x = true ∧ isPySpace y = true))
        (collapseWsAux l b) := by
  intro l
  induction l with
  | nil => intro b; exact List.chain'_nil
  | cons a rest ih =>
    intro b
    rw [collapseWsAux]
    by_cases ha : isPySpace a
    · rw [if_pos ha]
      cases b with
      | true => exact ih true
      | false =>
        apply List.chain'_cons'.2
        refine ⟨?_, ih true⟩
        intro y hy
        intro hcon
        rw [collapseWsAux_head_true rest y hy] at hcon
        exact Bool.false_ne_true hcon.2
    · rw [if_neg ha]
      apply List.chain'_cons'.2
      refine ⟨?_, ih false⟩
      intro y hy hcon
      rw [Bool.eq_false_iff.2 ha] at hcon
      exact Bool.false_ne_true hcon.1

theorem subCrLfTabAux_id :
    ∀ (l : List Char) (b : Bool), (∀ c ∈ l, isCrLfTab c = false) →
      subCrLfTabAux l b = l := by
  intro l
  induction l with
  | nil => intro b _; rfl
  | cons a rest ih =>
    intro b h
    rw [subCrLfTabAux]
    rw [if_neg (by rw [h a (List.mem_cons_self a rest)]; exact Bool.false_ne_true)]
    rw [ih false (fun c hc => h c (List.mem_cons_of_mem _ hc))]

theorem dropWhile_head_not (p : Char → Bool) :
    ∀ (m : List Char) (c : Char), (m.dropWhile p).head? = some c → p c = false := by
  intro m
  induction m with
  | nil => intro c hc; cases hc
  | cons a rest ih =>
    intro c hc
    rw [List.dropWhile_cons] at hc
    by_cases ha : p a
    · rw [if_pos ha] at hc
      exact ih c hc
    · rw [if_neg ha] at hc
      cases hc
      exact Bool.eq_false_iff.2 ha

theorem dropWhile_append_single (p : Char → Bool) (c : Char) (hc : p c = false) :
    ∀ x : List Char, (x ++ [c]).dropWhile p = x.dropWhile p ++ [c] := by
  intro x
  induction x with
  | nil =>
    simp [List.dropWhile_cons, hc]
  | cons a rest ih =>
    rw [List.cons_append, List.dropWhile_cons, List.dropWhile_cons]
    by_cases ha : p a
    · rw [if_pos ha, if_pos ha]
      exact ih
    · rw [if_neg ha, if_neg ha, List.cons_append]

theorem pyStrip_head (l : List Char) (c : Char)
    (h : (pyStrip l).head? = some c) : isPySpace c = false := by
  unfold pyStrip at h
  cases hA : l.dropWhile isPySpace with
  | nil => rw [hA] at h; cases h
  | cons a t =>
    have ha : isPySpace a = false := by
      apply dropWhile_head_not isPySpace l
      rw [hA]
      rfl
    rw [hA] at h
    rw [show (a :: t).reverse = t.reverse ++ [a] by simp] at h
    rw [dropWhile_append_single isPySpace a ha t.reverse] at h
    rw [List.reverse_append] at h
    simp only [List.reverse_cons, List.reverse_nil, List.nil_append, List.singleton_append,
      List.head?_cons] at h
    cases h
    exact ha

theorem pyStrip_last (l : List Char) (c : Char)
    (h : (pyStrip l).getLast? = some c) : isPySpace c = false := by
  unfold pyStrip at h
  rw [List.getLast?_reverse] at h
  exact dropWhile_head_not isPySpace _ c h

theorem dropWhile_id_of_head (p : Char → Bool) (l : List Char)
    (h : ∀ c, l.head? = some c → p c = false) : l.dropWhile p = l := by
  cases l with
  | nil => rfl
  | cons a rest =>
    rw [List.dropWhile_cons, if_neg (by rw [h a rfl]; exact Bool.false_ne_true)]

theorem pyStrip_eq_self (l : List Char)
    (h1 : ∀ c, l.head? = some c → isPySpace c = false)
    (h2 : ∀ c, l.getLast? = some c → isPySpace c = false) : pyStrip l = l := by
  unfold pyStrip
  rw [dropWhile_id_of_head isPySpace l h1]
  rw [dropWhile_id_of_head isPySpace l.reverse (by
    intro c hc
    rw [List.head?_reverse] at hc
    exact h2 c hc)]
  exact List.reverse_reverse l

theorem pyStrip_sublist (l : List Char) : (pyStrip l).Sublist l := by
  unfold pyStrip
  have h1 : ((l.dropWhile isPySpace).reverse.dropWhile isPySpace).Sublist
      (l.dropWhile isPySpace).reverse := List.dropWhile_sublist isPySpace
  have h2 := h1.reverse
  rw [List.reverse_reverse] at h2
  exact h2.trans (List.dropWhile_sublist isPySpace)

theorem chain_dropWhile (p : Char → Bool)
    (R : Char → Char → Prop) :
    ∀ l : List Char, List.Chain' R l → List.Chain' R (l.dropWhile p) := by
  intro l
  induction l with
  | nil => intro _; exact List.chain'_nil
  | cons a rest ih =>
    intro h
    rw [List.dropWhile_cons]
    by_cases ha : p a
    · rw [if_pos ha]
      exact ih h.tail
    · rw [if_neg ha]
      exact h

theorem pyStrip_chain (l : List Char)
    (h : List.Chain' (fun x y => ¬(isPySpace x = true ∧ isPySpace y = true)) l) :
    List.Chain' (fun x y => ¬(isPySpace x = true ∧ isPySpace y = true)) (pyStrip l) := by
  unfold pyStrip
  have s1 := chain_dropWhile isPySpace _ l h
  have s2 : List.Chain' (fun x y => ¬(isPySpace x = true ∧ isPySpace y = true))
      (l.dropWhile isPySpace).reverse := by
    rw [List.chain'_reverse]
    exact s1.imp (fun _ _ hxy hcon => hxy ⟨hcon.2, hcon.1⟩)
  have s3 := chain_dropWhile isPySpace _ _ s2
  rw [List.chain'_reverse]
  exact s3.imp (fun _ _ hxy hcon => hxy ⟨hcon.2, hcon.1⟩)

theorem removeZeroWidth_mem (l : List Char) (c : Char) (h : c ∈ removeZeroWidth l) :
    c ∈ l ∧ c ≠ zwnj ∧ c ≠ zwj := by
  unfold removeZeroWidth at h
  rcases List.mem_filter.1 h with ⟨h1, h2⟩
  simp only [Bool.not_eq_eq_eq_not, Bool.not_true, Bool.or_eq_false_iff, decide_eq_false_iff_not]
    at h2
  exact ⟨h1, h2⟩

theorem removeZeroWidth_id (l : List Char) (h : ∀ c ∈ l, c ≠ zwnj ∧ c ≠ zwj) :
    removeZeroWidth l = l := by
  unfold removeZeroWidth
  apply List.filter_eq_self.2
  intro c hc
  simp only [Bool.not_eq_eq_eq_not, Bool.not_true, Bool.or_eq_false_iff, decide_eq_false_iff_not]
  exact h c hc

theorem collapseWsAux_id :
    ∀ l : List Char, (∀ c ∈ l, isPySpace c = true → c = ' ') →
      List.Chain' (fun x y => ¬(isPySpace x = true ∧ isPySpace y = true)) l →
      ∀ b : Bool, (b = true → ∀ c, l.head? = some c → isPySpace c = false) →
        collapseWsAux l b = l := by
  intro l
  induction l with
  | nil => intro _ _ b _; rfl
  | cons a rest ih =>
    intro hall hchain b hb
    rw [collapseWsAux]
    by_cases ha : isPySpace a
    · have hb' : b = false := by
        cases b with
        | false => rfl
        | true => exact absurd ha (by rw [hb rfl a rfl]; exact Bool.false_ne_true)
      subst hb'
      rw [if_pos ha, if_neg (show ¬ false = true from Bool.false_ne_true)]
      have hblank : a = ' ' := hall a (List.mem_cons_self a rest) ha
      rw [show (' ' : Char) = a from hblank.symm]
      congr 1
      apply ih (fun c hc hs => hall c (List.mem_cons_of_mem _ hc) hs) hchain.tail true
      intro _ c hc
      have hrel := List.chain'_cons'.1 hchain
      have := hrel.1 c (by rw [hc]; rfl)
      by_cases hcs : isPySpace c
      · exact absurd ⟨ha, hcs⟩ this
      · exact Bool.eq_false_iff.2 hcs
    · rw [if_neg ha]
      congr 1
      apply ih (fun c hc hs => hall c (List.mem_cons_of_mem _ hc) hs) hchain.tail false
      intro hfalse
      cases hfalse

theorem crlftab_is_space (c : Char) (h : isCrLfTab c = true) : isPySpace c = true := by
  have : c = '\r' ∨ c = '\n' ∨ c = '\t' := by
    rcases Bool.or_eq_true_iff.1 h with h1 | h2
    · rcases Bool.or_eq_true_iff.1 h1 with h3 | h4
      · exact Or.inl (by simpa using h3)
      · exact Or.inr (Or.inl (by simpa using h4))
    · exact Or.inr (Or.inr (by simpa using h2))
  rcases this with rfl | rfl | rfl <;> decide

theorem collapseWs_no_crlftab (l : List Char) (c : Char) (hc : c ∈ collapseWs l) :
    isCrLfTab c = false := by
  rcases collapseWsAux_mem l false c hc with ⟨_, hns⟩ | hb
  · by_cases hct : isCrLfTab c
    · exact absurd (crlftab_is_space c hct) (by rw [hns]; exact Bool.false_ne_true)
    · exact Bool.eq_false_iff.2 hct
  · subst hb
    decide

theorem clean_text_eq (s : String) (hs : s ≠ "") :
    clean_text s = String.mk (pyStrip (removeZeroWidth (collapseWs (pyStrip s.data)))) := by
  unfold clean_text
  rw [if_neg hs]
  rw [show subCrLfTab (collapseWs (pyStrip s.data)) = collapseWs (pyStrip s.data) from
    subCrLfTabAux_id _ false (fun c hc => collapseWs_no_crlftab _ c hc)]

theorem clean_text_mem (s : String) (c : Char) (hc : c ∈ (clean_text s).data) :
    isCrLfTab c = false ∧ c ≠ zwnj ∧ c ≠ zwj := by
  by_cases hs : s = ""
  · subst hs
    cases hc
  · rw [clean_text_eq s hs] at hc
    have h1 : c ∈ removeZeroWidth (collapseWs (pyStrip s.data)) :=
      (pyStrip_sublist _).subset hc
    rcases removeZeroWidth_mem _ c h1 with ⟨h2, h3, h4⟩
    exact ⟨collapseWs_no_crlftab _ c h2, h3, h4⟩

theorem clean_text_head (s : String) (c : Char)
    (h : (clean_text s).data.head? = some c) : isPySpace c = false := by
  by_cases hs : s = ""
  · subst hs
    cases h
  · rw [clean_text_eq s hs] at h
    exact pyStrip_head _ c h

theorem clean_text_last (s : String) (c : Char)
    (h : (clean_text s).data.getLast? = some c) : isPySpace c = false := by
  by_cases hs : s = ""
  · subst hs
    cases h
  · rw [clean_text_eq s hs] at h
    exact pyStrip_last _ c h

theorem clean_text_nozw_data (s : String) (hzw : ∀ c ∈ s.data, c ≠ zwnj ∧ c ≠ zwj)
    (hs : s ≠ "") :
    (clean_text s).data = pyStrip (collapseWs (pyStrip s.data)) := by
  rw [clean_text_eq s hs]
  rw [removeZeroWidth_id _ (fun c hc => by
    rcases collapseWsAux_mem _ false c hc with ⟨h1, _⟩ | hb
    · exact hzw c ((pyStrip_sublist s.data).subset h1)
    · subst hb
      exact ⟨by decide, by decide⟩)]

theorem clean_text_chain (s : String) (hzw : ∀ c ∈ s.data, c ≠ zwnj ∧ c ≠ zwj) :
    List.Chain' (fun x y => ¬(isPySpace x = true ∧ isPySpace y = true))
      (clean_text s).data := by
  by_cases hs : s = ""
  · subst hs
    exact List.chain'_nil
  · rw [clean_text_nozw_data s hzw hs]
    exact pyStrip_chain _ (collapseWsAux_chain _ false)

theorem clean_text_space_blank (s : String) (c : Char) (hc : c ∈ (clean_text s).data)
    (hsp : isPySpace c = true) : c = ' ' := by
  by_cases hs : s = ""
  · subst hs
    cases hc
  · rw [clean_text_eq s hs] at hc
    have h1 : c ∈ removeZeroWidth (collapseWs (pyStrip s.data)) :=
      (pyStrip_sublist _).subset hc
    rcases removeZeroWidth_mem _ c h1 with ⟨h2, _, _⟩
    rcases collapseWsAux_mem _ false c h2 with ⟨_, hns⟩ | hb
    · rw [hsp] at hns
      cases hns
    · exact hb

theorem clean_text_idem (s : String) (hzw : ∀ c ∈ s.data, c ≠ zwnj ∧ c ≠ zwj) :
    clean_text (clean_text s) = clean_text s := by
  by_cases hr : clean_text s = ""
  · rw [hr]
    rfl
  · rw [clean_text_eq (clean_text s) hr]
    have hstrip : pyStrip (clean_text s).data = (clean_text s).data :=
      pyStrip_eq_self _ (clean_text_head s) (clean_text_last s)
    rw [hstrip]
    have hcoll : collapseWs (clean_text s).data = (clean_text s).data := by
      apply collapseWsAux_id _ (clean_text_space_blank s) (clean_text_chain s hzw) false
      intro hfalse
      cases hfalse
    rw [hcoll]
    rw [removeZeroWidth_id _ (fun c hc => (clean_text_mem s c hc).2)]
    rw [hstrip]

/-- Claim C10 (amended): `clean_text` output has no leading or trailing
whitespace, no carriage-return/newline/tab and no U+200C/U+200D anywhere,
and the empty input yields the empty string; on inputs that contain no
U+200C/U+200D the output additionally has no two consecutive whitespace
characters and `clean_text` is idempotent.  (On inputs where zero-width
characters separate whitespace runs, their removal can leave two adjacent
spaces and a second application differs — see the counterexample.) -/
theorem C10_clean_text :
    clean_text "" = ""
      ∧ (∀ s : String, ∀ c, (clean_text s).data.head? = some c → isPySpace c = false)
      ∧ (∀ s : String, ∀ c, (clean_text s).data.getLast? = some c → isPySpace c = false)
      ∧ (∀ s : String, ∀ c ∈ (clean_text s).data,
          isCrLfTab c = false ∧ c ≠ zwnj ∧ c ≠ zwj)
      ∧ (∀ s : String, (∀ c ∈ s.data, c ≠ zwnj ∧ c ≠ zwj) →
          List.Chain' (fun x y => ¬(isPySpace x = true ∧ isPySpace y = true))
              (clean_text s).data
            ∧ clean_text (clean_text s) = clean_text s) :=
  ⟨rfl, clean_text_head, clean_text_last, clean_text_mem,
    fun s hzw => ⟨clean_text_chain s hzw, clean_text_idem s hzw⟩⟩

/-- Claim C10, counterexample: on the input `"a \u200c b"` (a zero-width
non-joiner between two whitespace runs) `clean_text` returns `"a  b"`,
which contains two consecutive spaces, and a second application collapses
them — so `clean_text` is neither idempotent nor free of consecutive
whitespace on all inputs, refuting the claim as stated. -/
theorem C10_counterexample :
    clean_text "a ‌ b" = "a  b"
      ∧ clean_text (clean_text "a ‌ b") ≠ clean_text "a ‌ b"
      ∧ (clean_text "a ‌ b").data = ['a', ' ', ' ', 'b']
      ∧ isPySpace ' ' = true := by
  refine ⟨by decide, by decide, by decide, by decide⟩

/-- Claim C3, counterexample: `normalize_book_id` returns `"00043"`
unchanged (leading zeroes are stripped only after a `"BK"` prefix), and
the empty string is returned unchanged rather than failing — both against
the claim. -/
theorem C3_counterexample :
    normalize_book_id "00043" = Except.ok "00043"
      ∧ normalize_book_id "00043" ≠ Except.ok "43"
      ∧ normalize_book_id "" = Except.ok "" := by
  refine ⟨rfl, fun h => absurd (Except.ok.inj h) (by decide), rfl⟩

/-- Claim C3 (amended): `"BK000043"` and `"43"` normalize to `"43"`, and a
`"BK"`-prefixed input whose remainder is not an integer literal fails; but
an input without the prefix is returned unchanged after whitespace
stripping — `"00043"` keeps its leading zeroes and `""` is returned as-is
without failure. -/
theorem C3_normalize_book_id :
    normalize_book_id "BK000043" = Except.ok "43"
      ∧ normalize_book_id "43" = Except.ok "43"
      ∧ normalize_book_id "00043" = Except.ok "00043"
      ∧ normalize_book_id "" = Except.ok ""
      ∧ normalize_book_id "BKx3a" = Except.error ()
      ∧ ∀ s : String, (pyStrip s.data).take 2 ≠ ['B', 'K'] →
          normalize_book_id s = Except.ok (String.mk (pyStrip s.data)) := by
  refine ⟨rfl, rfl, rfl, rfl, rfl, ?_⟩
  intro s h
  simp only [normalize_book_id]
  split
  · next rest heq =>
      exact absurd (by rw [heq]; rfl) h
  · rfl

/-- Witness for `C3_normalize_book_id` at the concrete unprefixed input
`"shamela"`. -/
theorem C3_normalize_book_id_witness :
    (pyStrip "shamela".data).take 2 ≠ ['B', 'K']
      ∧ normalize_book_id "shamela" = Except.ok (String.mk (pyStrip "shamela".data)) :=
  ⟨by decide, C3_normalize_book_id.2.2.2.2.2 "shamela" (by decide)⟩

/-- Claim C7 (confirmed): printed-page-number extraction from a title
text returns the integer of the first match of
`[صس]\s*[:：]?\s*([0-9٠-٩]+)` after Arabic-Indic conversion
(`"ص:١٢3"` gives `123`), `"٤٢٣"` converts and parses to `423`, and a
title with no `ص`/`س` at all yields `None`. -/
theorem C7_printed_page_number :
    extract_printed_page_number "ص:١٢3" = some 123
      ∧ pyIntParse (convert_arabic_hindi_digits "٤٢٣").data = some 423
      ∧ extract_printed_page_number "مقدمة المؤلف" = none
      ∧ ∀ t : String, (∀ c ∈ t.data, c ≠ 'ص' ∧ c ≠ 'س') →
          extract_printed_page_number t = none := by
  refine ⟨by decide, by decide, by decide, ?_⟩
  intro t h
  unfold extract_printed_page_number
  split
  · rfl
  · have main : ∀ l : List Char, (∀ c ∈ l, c ≠ 'ص' ∧ c ≠ 'س') →
        scanFirst matchPrintedAt l = none := by
      intro l
      induction l with
      | nil => intro _; rfl
      | cons c rest ih =>
        intro hc
        have h1 := hc c (List.mem_cons_self c rest)
        simp only [scanFirst]
        rw [show matchPrintedAt (c :: rest) = none from by
          simp [matchPrintedAt, h1.1, h1.2]]
        exact ih (fun d hd => hc d (List.mem_cons_of_mem _ hd))
    rw [main t.data h]

/-- Witness for `C7_printed_page_number` at the concrete title `"abc"`. -/
theorem C7_printed_page_number_witness :
    (∀ c ∈ "abc".data, c ≠ 'ص' ∧ c ≠ 'س')
      ∧ extract_printed_page_number "abc" = none :=
  ⟨by decide, C7_printed_page_number.2.2.2 "abc" (by decide)⟩

/-- Claim C9 (confirmed): when only the Hijri year is present the derived
Gregorian year is `int(hijri / 1.030684) + 622` — the claim's formula
inverted with integer truncation, stated here as an integer floor — and at
`1420` the derived year is exactly `1999`; in the other direction
`gregorian_to_hijri` computes `int((g − 622) · 1.030684) + 1`, which lies
within 1 of the claim's product `(g − 622) · 1.030684`. -/
theorem C9_year_conversion :
    hijri_to_gregorian_derived 1420 = 1999
      ∧ (∀ h : Nat, (hijri_to_gregorian_derived h : Int)
            = ⌊(h : ℚ) / (1030684 / 1000000 : ℚ)⌋ + 622)
      ∧ (∀ g : Nat, 622 ≤ g →
          gregorian_to_hijri g = toString ((g - 622) * 1030684 / 1000000 + 1)
            ∧ ((g - 622 : Nat) : ℚ) * (1030684 / 1000000)
                < (((g - 622) * 1030684 / 1000000 + 1 : Nat) : ℚ)
            ∧ (((g - 622) * 1030684 / 1000000 + 1 : Nat) : ℚ)
                ≤ ((g - 622 : Nat) : ℚ) * (1030684 / 1000000) + 1) := by
  refine ⟨by decide, ?_, ?_⟩
  · intro h
    have e1 : (h : ℚ) / (1030684 / 1000000 : ℚ)
        = ((h * 1000000 : Nat) : ℚ) / ((1030684 : Nat) : ℚ) := by
      push_cast
      field_simp
    rw [e1]
    have hnn : (0 : ℚ) ≤ ((h * 1000000 : Nat) : ℚ) / ((1030684 : Nat) : ℚ) :=
      div_nonneg (Nat.cast_nonneg _) (Nat.cast_nonneg _)
    rw [← Int.natCast_floor_eq_floor hnn, Nat.floor_div_nat, Nat.floor_natCast]
    simp [hijri_to_gregorian_derived]
  · intro g hg
    constructor
    · unfold gregorian_to_hijri
      rw [if_neg]
      simp only [Bool.or_eq_true, decide_eq_true_eq, not_or]
      omega
    · set m : Nat := (g - 622) * 1030684 with hm
      have e2 : ((g - 622 : Nat) : ℚ) * (1030684 / 1000000)
          = ((m : Nat) : ℚ) / ((1000000 : Nat) : ℚ) := by
        rw [hm]
        push_cast
        ring
      have hfl : (m / 1000000 : Nat) = ⌊((m : Nat) : ℚ) / ((1000000 : Nat) : ℚ)⌋₊ := by
        rw [Nat.floor_div_nat, Nat.floor_natCast]
      constructor
      · rw [e2]
        have := Nat.lt_floor_add_one (((m : Nat) : ℚ) / ((1000000 : Nat) : ℚ))
        push_cast
        push_cast at this
        rw [hfl]
        push_cast
        linarith
      · rw [e2]
        have hnn : (0 : ℚ) ≤ ((m : Nat) : ℚ) / ((1000000 : Nat) : ℚ) :=
          div_nonneg (Nat.cast_nonneg _) (Nat.cast_nonneg _)
        have := Nat.floor_le hnn
        rw [hfl]
        push_cast
        linarith

/-- Witness for `C9_year_conversion` at the concrete Gregorian year 2000
(derived Hijri string `"1421"`). -/
theorem C9_year_conversion_witness :
    622 ≤ 2000
      ∧ gregorian_to_hijri 2000 = toString ((2000 - 622) * 1030684 / 1000000 + 1)
      ∧ gregorian_to_hijri 2000 = "1421" :=
  ⟨by decide, (C9_year_conversion.2.2 2000 (by decide)).1, by decide⟩

/-- Claim C8, counterexample: the edition text `"الأولى بدون تاريخ"` does
not begin with `بدون تاريخ` or `بدون طبعة` and contains the ordinal
`الأولى`, so the claim predicts `editionNumber = 1`; but the code tests
containment, not a prefix, and yields `None` for both fields. -/
theorem C8_counterexample :
    "بدون تاريخ".data.isPrefixOf "الأولى بدون تاريخ".data = false
      ∧ "بدون طبعة".data.isPrefixOf "الأولى بدون تاريخ".data = false
      ∧ containsSub "الأولى".data "الأولى بدون تاريخ".data = true
      ∧ edition_fields_of_text "الأولى بدون تاريخ" = (none, none) := by
  refine ⟨by decide, by decide, by decide, by decide⟩

/-- Claim C8 (amended): an edition string *containing* `بدون تاريخ` or
`بدون طبعة` anywhere (not only at the start) yields `None` for both
fields; otherwise the edition number is resolved first by the ordinal
table (any string containing `الأولى` yields 1, so `"الطبعة الأولى"`
gives 1), else by the numeric patterns `ط N` / `الطبعة N` / `طبعة N` /
`N طبعة` (so `"الطبعة 7"` gives 7), and only then by the first integer in
the string — `"سنة 1999 الطبعة 3"` gives 3, not the first integer 1999. -/
theorem C8_edition :
    (∀ s : String, containsSub "بدون تاريخ".data s.data = true →
        edition_fields_of_text s = (none, none))
      ∧ (∀ s : String, containsSub "بدون طبعة".data s.data = true →
          edition_fields_of_text s = (none, none))
      ∧ (∀ s : String, s ≠ "" → containsSub "الأولى".data (pyStrip s.data) = true →
          extract_edition_number s = some 1)
      ∧ edition_fields_of_text "الطبعة الأولى" = (some "الطبعة الأولى", some 1)
      ∧ edition_fields_of_text "الطبعة 7" = (some "الطبعة 7", some 7)
      ∧ edition_fields_of_text "بدون تاريخ" = (none, none)
      ∧ extract_edition_number "سنة 1999 الطبعة 3" = some 3 := by
  refine ⟨?_, ?_, ?_, by decide, by decide, by decide, by decide⟩
  · intro s h
    simp [edition_fields_of_text, h]
  · intro s h
    simp [edition_fields_of_text, h]
  · intro s hne hcon
    have hf : editionOrdinals.find? (fun p => containsSub p.1.data (pyStrip s.data))
        = some ("الأولى", 1) := by
      rw [editionOrdinals]
      apply List.find?_cons_of_pos
      simpa using hcon
    simp only [extract_edition_number, if_neg hne, hf]

/-- Witness for `C8_edition` at the concrete edition text
`"الطبعة الأولى"`. -/
theorem C8_edition_witness :
    ("الطبعة الأولى" : String) ≠ ""
      ∧ containsSub "الأولى".data (pyStrip "الطبعة الأولى".data) = true
      ∧ extract_edition_number "الطبعة الأولى" = some 1 :=
  ⟨by decide, by decide, C8_edition.2.2.1 "الطبعة الأولى" (by decide) (by decide)⟩

/-- Claim C1, counterexample: with original pagination on, a page whose
`<title>` yields a printed number equal to its internal index satisfies
`pageNumber = internalIndex` while `hasOriginalPagination = true` and
`printedMissing = false` — refuting the claim's "iff" reading of the
dual-numbering rule (only the if-direction holds). -/
theorem C1_counterexample :
    (extract_enhanced_page_content 5 true ⟨"ص: 5", "متن الصفحة"⟩).page_number
        = (extract_enhanced_page_content 5 true ⟨"ص: 5", "متن الصفحة"⟩).internal_index
      ∧ (extract_enhanced_page_content 5 true ⟨"ص: 5", "متن الصفحة"⟩).printed_missing
          = false := by
  refine ⟨by decide, by decide⟩

/-- Claim C1 (amended): the dual-numbering rule holds as a definition by
cases — without original pagination `pageNumber = internalIndex` and
`printedMissing = false`; with it, a successful printed extraction becomes
`pageNumber` with `printedMissing = false`, a failed one keeps the
internal index and sets `printedMissing = true`; hence
`hasOriginalPagination = false ∨ printedMissing = true` implies
`pageNumber = internalIndex`, but the converse fails when the printed
number coincides with the internal index. -/
theorem C1_dual_numbering :
    ∀ (internal : Nat) (hasOrig : Bool) (pd : PageData),
      (extract_enhanced_page_content internal hasOrig pd).internal_index = internal
        ∧ (hasOrig = false →
            (extract_enhanced_page_content internal hasOrig pd).page_number = internal
              ∧ (extract_enhanced_page_content internal hasOrig pd).printed_missing = false)
        ∧ (∀ n, hasOrig = true → extract_printed_page_number pd.title = some n →
            (extract_enhanced_page_content internal hasOrig pd).page_number = n
              ∧ (extract_enhanced_page_content internal hasOrig pd).printed_missing = false)
        ∧ (hasOrig = true → extract_printed_page_number pd.title = none →
            (extract_enhanced_page_content internal hasOrig pd).page_number = internal
              ∧ (extract_enhanced_page_content internal hasOrig pd).printed_missing = true)
        ∧ ((hasOrig = false
              ∨ (extract_enhanced_page_content internal hasOrig pd).printed_missing = true) →
            (extract_enhanced_page_content internal hasOrig pd).page_number = internal) := by
  intro internal hasOrig pd
  cases hasOrig with
  | false => simp [extract_enhanced_page_content]
  | true =>
    cases hE : extract_printed_page_number pd.title with
    | none => simp [extract_enhanced_page_content, hE]
    | some n => simp [extract_enhanced_page_content, hE]

/-- Witness for `C1_dual_numbering` at internal index 5 with a title
carrying printed number 12. -/
theorem C1_dual_numbering_witness :
    extract_printed_page_number "ص: 12" = some 12
      ∧ (extract_enhanced_page_content 5 true ⟨"ص: 12", "نص"⟩).page_number = 12
        ∧ (extract_enhanced_page_content 5 true ⟨"ص: 12", "نص"⟩).printed_missing = false :=
  ⟨by decide, (C1_dual_numbering 5 true ⟨"ص: 12", "نص"⟩).2.2.1 12 rfl (by decide)⟩

/-- Claim C4, counterexample: a page whose extracted body text is `"abc"`
— 3 characters, far below `minContentLength = 50`, with no Arabic script
at all — is nevertheless included by the page-collection path, which only
rejects empty (whitespace-only) text; the claimed length and Arabic-ratio
checks do not exist in this code path. -/
theorem C4_counterexample :
    (extract_pages_traditional_method 1 false (fun _ => ⟨"", "abc"⟩)).map
        (fun p => p.content) = ["abc"]
      ∧ "abc".length < 50 := by
  refine ⟨by decide, by decide⟩

/-- Claim C4 (amended): in `extract_pages_traditional_method` a fetched
page is excluded from the results iff its extracted body text is empty
after `strip()`; no minimum-length or Arabic-ratio check is applied
per page in this path. -/
theorem C4_page_filter :
    ∀ (n : Nat) (hasOrig : Bool) (site : Nat → PageData) (i : Nat),
      (∃ p ∈ extract_pages_traditional_method n hasOrig site, p.internal_index = i)
        ↔ (i ∈ List.range' 1 n ∧ pyStrip (site i).content.data ≠ []) := by
  intro n hasOrig site i
  constructor
  · rintro ⟨p, hp, hint⟩
    simp only [extract_pages_traditional_method, List.mem_filterMap] at hp
    obtain ⟨a, ha, hfa⟩ := hp
    split_ifs at hfa with hc
    · have hpa : p = extract_enhanced_page_content a hasOrig (site a) :=
        (Option.some.inj hfa).symm
      have hia : p.internal_index = a := by
        rw [hpa]; rfl
      rw [hia] at hint
      subst hint
      exact ⟨ha, hc⟩
  · rintro ⟨hi, hc⟩
    refine ⟨extract_enhanced_page_content i hasOrig (site i), ?_, rfl⟩
    simp only [extract_pages_traditional_method, List.mem_filterMap]
    refine ⟨i, hi, ?_⟩
    have hceq : (extract_enhanced_page_content i hasOrig (site i)).content
        = (site i).content := rfl
    rw [hceq, if_pos hc]

/-- Helper for claim C2: when every page's body text is nonempty, the
traditional collection keeps all pages of 1..n in order. -/
theorem kept_all (hasOrig : Bool) (site : Nat → PageData) :
    ∀ l : List Nat, (∀ i ∈ l, pyStrip (site i).content.data ≠ []) →
      l.filterMap (fun i =>
        let p := extract_enhanced_page_content i hasOrig (site i)
        if pyStrip p.content.data ≠ [] then some p else none)
      = l.map (fun i => extract_enhanced_page_content i hasOrig (site i)) := by
  intro l
  induction l with
  | nil => intro _; rfl
  | cons a t ih =>
    intro h
    simp only [List.filterMap_cons, List.map_cons]
    rw [if_pos (show pyStrip (extract_enhanced_page_content a hasOrig (site a)).content.data ≠ []
      from h a (List.mem_cons_self a t))]
    rw [ih (fun i hi => h i (List.mem_cons_of_mem _ hi))]

/-- Helper for claim C2: without original pagination, the collected list
is already sorted by `page_number` (which equals the internal index). -/
theorem pages_sorted_nopag (n : Nat) (site : Nat → PageData) :
    List.Sorted pageNumLe
      ((List.range' 1 n).map (fun i => extract_enhanced_page_content i false (site i))) := by
  rw [List.Sorted, List.pairwise_map]
  have := List.pairwise_lt_range' 1 n
  exact this.imp (fun hab => Nat.le_of_lt hab)

/-- Claim C2, counterexample: the final sort of
`extract_all_pages_enhanced` (line 2137) is by `page_number`, not by the
internal index: a 2-page book with original pagination whose titles carry
printed numbers 300 and 1 comes back in internal order `[2, 1]` — not
ascending by `internalIndex`, and `pages[i].internalIndex ≠ i+1`. -/
theorem C2_counterexample :
    (extract_all_pages_enhanced 2 true
        (fun i => if i = 1 then ⟨"ص: 300", "محتوى أول"⟩ else ⟨"ص: 1", "محتوى ثان"⟩)).map
        (fun p => p.internal_index) = [2, 1]
      ∧ ([2, 1] : List Nat) ≠ [1, 2] := by
  refine ⟨by decide, by decide⟩

/-- Claim C2 (amended): the pages exposed to the caller are sorted by
`pageNumber` ascending (not by `internalIndex`); when
`hasOriginalPagination` is false — so `pageNumber` equals the internal
index — and every page passes the nonempty-content filter with no
`maxPages` constraint, the sequence is `internalIndex`-contiguous:
`pages[i].internalIndex = i+1`. -/
theorem C2_pages_order :
    ∀ (n : Nat) (hasOrig : Bool) (site : Nat → PageData),
      List.Sorted pageNumLe (extract_all_pages_enhanced n hasOrig site)
        ∧ (hasOrig = false →
            (∀ i ∈ List.range' 1 n, pyStrip (site i).content.data ≠ []) →
            (extract_all_pages_enhanced n hasOrig site).map (fun p => p.internal_index)
              = List.range' 1 n) := by
  intro n hasOrig site
  constructor
  · exact List.sorted_insertionSort pageNumLe _
  · rintro rfl h
    unfold extract_all_pages_enhanced
    rw [show extract_pages_traditional_method n false site
        = (List.range' 1 n).map (fun i => extract_enhanced_page_content i false (site i)) from
      kept_all false site (List.range' 1 n) h]
    rw [List.Sorted.insertionSort_eq (pages_sorted_nopag n site)]
    rw [List.map_map]
    have hcomp : ((fun p : PageContent => p.internal_index) ∘
        (fun i => extract_enhanced_page_content i false (site i))) = fun i => i := rfl
    rw [hcomp, List.map_id']

/-- Witness for `C2_pages_order` on a complete 2-page book without
original pagination. -/
theorem C2_pages_order_witness :
    (∀ i ∈ List.range' 1 2,
        pyStrip ((fun _ => (⟨"", "نص كامل"⟩ : PageData)) i).content.data ≠ [])
      ∧ (extract_all_pages_enhanced 2 false (fun _ => ⟨"", "نص كامل"⟩)).map
          (fun p => p.internal_index) = List.range' 1 2 :=
  ⟨by decide, (C2_pages_order 2 false (fun _ => ⟨"", "نص كامل"⟩)).2 rfl (by decide)⟩

/-- Helper for claim C6: a value produced by `goodOf` is longer than 3. -/
theorem goodOf_long (soup : Soup) (sel : String) (t : String)
    (h : goodOf soup sel = some t) : 3 < t.length := by
  unfold goodOf at h
  cases hs : selectOne soup sel with
  | none => rw [hs] at h; simp at h
  | some txt =>
    rw [hs] at h
    simp only [Option.some_bind] at h
    split_ifs at h with hl
    · cases h; exact hl

/-- Helper for claim C6: the first good title is longer than 3. -/
theorem findSome?_good_long (soup : Soup) :
    ∀ (sels : List String) (t : String),
      sels.findSome? (goodOf soup) = some t → 3 < t.length := by
  intro sels
  induction sels with
  | nil => intro t h; simp at h
  | cons sel rest ih =>
    intro t h
    rw [List.findSome?_cons] at h
    cases hg : goodOf soup sel with
    | some u => rw [hg] at h; cases h; exact goodOf_long soup sel _ hg
    | none => rw [hg] at h; exact ih t h

/-- Helper for claim C6: the title loop returns the first selector match
with cleaned length > 3 when one exists, else the cleaned text of the last
matching selector, else the accumulator. -/
theorem titleLoop_eq (soup : Soup) :
    ∀ (sels : List String) (acc : String),
      titleLoop soup sels acc =
        match sels.findSome? (goodOf soup) with
        | some t => t
        | none =>
          match sels.reverse.findSome? (fun sel => (selectOne soup sel).map clean_text) with
          | some t => t
          | none => acc := by
  intro sels
  induction sels with
  | nil => intro acc; rfl
  | cons sel rest ih =>
    intro acc
    rw [List.findSome?_cons]
    simp only [List.reverse_cons, List.findSome?_append]
    cases hs : selectOne soup sel with
    | none =>
      have hg : goodOf soup sel = none := by simp [goodOf, hs]
      rw [hg]
      have hlast : List.findSome? (fun sel => (selectOne soup sel).map clean_text) [sel]
          = none := by
        simp [List.findSome?, hs]
      rw [hlast]
      simp only [titleLoop, hs]
      rw [ih acc]
      cases rest.findSome? (goodOf soup) <;>
        cases rest.reverse.findSome? (fun sel => (selectOne soup sel).map clean_text) <;> simp
    | some txt =>
      by_cases hl : 3 < (clean_text txt).length
      · have hg : goodOf soup sel = some (clean_text txt) := by simp [goodOf, hs, hl]
        rw [hg]
        simp only [titleLoop, hs]
        rw [if_pos hl]
      · have hg : goodOf soup sel = none := by simp [goodOf, hs, hl]
        rw [hg]
        have hlast : List.findSome? (fun sel => (selectOne soup sel).map clean_text) [sel]
            = some (clean_text txt) := by
          simp [List.findSome?, hs]
        rw [hlast]
        simp only [titleLoop, hs]
        rw [if_neg hl]
        rw [ih (clean_text txt)]
        cases rest.findSome? (goodOf soup) <;>
          cases rest.reverse.findSome? (fun sel => (selectOne soup sel).map clean_text) <;> simp

/-- Claim C6, counterexample: a landing page on which only the `title`
selector matches, with cleaned text `"abc"` of length 3, makes the
extractor return `"abc"` — a title of cleaned length ≤ 3, where the claim
says extraction must fail. -/
theorem C6_counterexample :
    extract_title [("title", "abc")] = Except.ok "abc"
      ∧ ¬ 3 < ("abc" : String).length :=
  ⟨rfl, by decide⟩

/-- Claim C6 (amended): the title is the first selector (in the order
`h1.book-title`, `h1`, `.book-title`, `title`) whose cleaned text has
length > 3 when one exists; otherwise the cleaned text of the last
matching selector is returned when it is nonempty (possibly of length
≤ 3), and the hard error is raised exactly when no selector matches or the
last match cleans to the empty string.  In particular an `ok` result is
never the empty string, but it can have length ≤ 3. -/
theorem C6_title :
    ∀ soup : Soup,
      (∀ t, extract_title soup = Except.ok t → t ≠ "")
        ∧ (∀ t, firstGoodTitle soup = some t →
            extract_title soup = Except.ok t ∧ 3 < t.length)
        ∧ (firstGoodTitle soup = none →
            extract_title soup =
              match lastMatchClean soup with
              | some t => if t = "" then Except.error () else Except.ok t
              | none => Except.error ()) := by
  intro soup
  refine ⟨?_, ?_, ?_⟩
  · intro t h
    simp only [extract_title] at h
    split_ifs at h with he
    exact fun hte => he ((Except.ok.inj h).trans hte)
  · intro t h
    have hl := findSome?_good_long soup title_selectors t h
    have ht : titleLoop soup title_selectors "" = t := by
      rw [titleLoop_eq soup title_selectors ""]
      rw [show title_selectors.findSome? (goodOf soup) = some t from h]
    simp only [extract_title, ht]
    rw [if_neg (by
      intro he
      rw [he] at hl
      exact absurd hl (by decide))]
    exact ⟨rfl, hl⟩
  · intro h
    simp only [extract_title]
    rw [titleLoop_eq soup title_selectors ""]
    rw [show title_selectors.findSome? (goodOf soup) = none from h]
    unfold lastMatchClean
    cases hd : title_selectors.reverse.findSome?
        (fun sel => (selectOne soup sel).map clean_text) with
    | some t => rfl
    | none => rfl

/-- Witness for `C6_title` on a landing page whose `h1` carries a long
title. -/
theorem C6_title_witness :
    firstGoodTitle [("h1", "العنوان الكامل")] = some "العنوان الكامل"
      ∧ extract_title [("h1", "العنوان الكامل")] = Except.ok "العنوان الكامل" :=
  ⟨by decide, ((C6_title [("h1", "العنوان الكامل")]).2.1 "العنوان الكامل" (by decide)).1⟩

/-- Claim C5, counterexample: when no valid dropdown entry is found, the
synthesized volume carries `page_end = None` — not `pageCountInternal`
(here the reading page's links give an internal page count of 250, yet the
fallback volume's `pageEnd` is unset). -/
theorem C5_counterexample :
    extract_volumes_from_dropdown "7" [] ["/book/7/250"] = [fallbackVolume]
      ∧ maxInternalPage "7" ["/book/7/250"] = 250
      ∧ fallbackVolume.page_end = none
      ∧ fallbackVolume.page_end ≠ some 250 := by
  refine ⟨rfl, by decide, rfl, by decide⟩

/-- Witness for `C5_volumes` on a concrete dropdown with two volume
links. -/
theorem C5_volumes_witness :
    dedupMin ((([⟨"/book/9/1#p1", "الجزء ١"⟩, ⟨"/book/9/4#p1", "الجزء ٢"⟩] :
          List VolLink).filter (volLinkAccepted "9")).filterMap (volDatum "9")) ≠ []
      ∧ List.Pairwise (fun a b : Volume => a.number < b.number)
          (extract_volumes_from_dropdown "9"
            [⟨"/book/9/1#p1", "الجزء ١"⟩, ⟨"/book/9/4#p1", "الجزء ٢"⟩] ["/book/9/7"]) :=
  ⟨by decide, ((C5_volumes "9"
      [⟨"/book/9/1#p1", "الجزء ١"⟩, ⟨"/book/9/4#p1", "الجزء ٢"⟩] ["/book/9/7"]).2
    (by decide)).1⟩

/-- Witness for `C10_clean_text` on a concrete Arabic string free of
zero-width characters. -/
theorem C10_clean_text_witness :
    (∀ c ∈ ("  نص  عربي " : String).data, c ≠ zwnj ∧ c ≠ zwj)
      ∧ clean_text (clean_text "  نص  عربي ") = clean_text "  نص  عربي " :=
  ⟨by decide, (C10_clean_text.2.2.2.2 "  نص  عربي " (by decide)).2⟩

/-- Witness for `C4_page_filter` on a one-page book whose body text is
nonempty. -/
theorem C4_page_filter_witness :
    (1 ∈ List.range' 1 1
        ∧ pyStrip ((fun _ => (⟨"", "abc"⟩ : PageData)) 1).content.data ≠ [])
      ∧ ∃ p ∈ extract_pages_traditional_method 1 false (fun _ => ⟨"", "abc"⟩),
          p.internal_index = 1 :=
  ⟨⟨by decide, by decide⟩,
    (C4_page_filter 1 false (fun _ => ⟨"", "abc"⟩) 1).2 ⟨by decide, by decide⟩⟩
